import Mathlib

/-!
Shallow embedding of `pygount/analysis.py` (line-counting source analysis).

The module classifies every physical line of a source file as code,
documentation, string or empty, and resolves the text encoding of a file.
External collaborators (the pygments lexers, the file system, the chardet
sniffer) are modelled as explicit inputs: a lexer lookup result is an
`Option String` (the lexer name), the token stream a lexer produces on the
file text is a `List Tok`, the first 128 bytes of a file are a `List Nat`,
and the outcome of reading/decoding the file is an `Option (List Tok)`.
-/

/-- Pygments token categories, reduced to the three buckets the analysis
distinguishes: membership in `token.Comment`, membership in `token.String`,
and everything else. -/
inductive TokenCat where
  | comment
  | str
  | other
deriving DecidableEq

/-- A pygments token: a category and its text. -/
structure Tok where
  cat : TokenCat
  text : String
deriving DecidableEq

/-- Python `str.rstrip(chars)`: remove trailing characters drawn from `chars`. -/
def pyRstrip (chars : List Char) (s : String) : String :=
  ⟨((s.data.reverse.dropWhile (fun c => c ∈ chars)).reverse)⟩

/-- ASCII whitespace, the characters stripped by Python `str.strip()` on the
ASCII texts this analysis handles. -/
def pyWsChars : List Char := [' ', '\t', '\n', '\r', '\x0b', '\x0c']

/-- Python `str.strip()` (no argument): remove leading and trailing whitespace. -/
def pyStrip (s : String) : String :=
  ⟨(((s.data.dropWhile (fun c => c ∈ pyWsChars)).reverse.dropWhile
      (fun c => c ∈ pyWsChars)).reverse)⟩

/-- Python `str.endswith('\n')`. -/
def textEndsWithNl (s : String) : Bool :=
  s.data.getLast? = some '\n'

/-- Python `str.lower()` on the ASCII lexer names this analysis handles. -/
def pyLower (s : String) : String :=
  ⟨s.data.map Char.toLower⟩

/-- The characters stripped by `' \f\n\r\t'` in `_pythonized_comments`. -/
def rstripChars : List Char := [' ', '\x0c', '\n', '\r', '\t']

/-- `white_characters(language_id)`: characters that count as white space if
they are the only characters in a line. -/
def white_characters (_language_id : String) : List Char :=
  ['(', ')', '[', ']', '\x7b', '\x7d', ';']

/-- `_LANGUAGE_TO_WHITE_WORDS_MAP` lookup, `white_code_words(language_id)`:
words that do not count as code if it is the only word in a line. -/
def white_code_words (language_id : String) : List String :=
  if language_id = "python" then ["pass"]
  else if language_id = "sql" then ["begin", "end"]
  else []

/-- Inner loop of `_delined_tokens` on one token text: repeatedly slice off
the prefix up to and including the next newline; a nonempty remainder is a
final slice.  `acc` holds the (reversed) characters of the current slice
read so far. -/
def delineTextAux (acc : List Char) : List Char → List (List Char)
  | [] => if acc = [] then [] else [acc.reverse]
  | c :: cs =>
    if c = '\n' then (acc.reverse ++ ['\n']) :: delineTextAux [] cs
    else delineTextAux (c :: acc) cs

/-- The slices of one token text produced by `_delined_tokens`. -/
def delineText (cs : List Char) : List (List Char) :=
  delineTextAux [] cs

/-- The tokens `_delined_tokens` yields for one input token: each slice keeps
the input token's category. -/
def delineTok (t : Tok) : List Tok :=
  (delineText t.text.data).map (fun cs => ⟨t.cat, ⟨cs⟩⟩)

/-- `_delined_tokens`: adapt a token stream so no token text contains a
newline other than as its final character. -/
def delined_tokens : List Tok → List Tok
  | [] => []
  | t :: rest => delineTok t ++ delined_tokens rest

/-- One step of `_pythonized_comments`: the state is `is_after_colon`; the
token may be rewritten to Comment category. -/
def pythonizedStep (is_after_colon : Bool) (t : Tok) : Bool × Tok :=
  if is_after_colon = true ∧ t.cat = TokenCat.str then
    (is_after_colon, ⟨TokenCat.comment, t.text⟩)
  else if t.text = ":" then
    (true, t)
  else if t.cat ≠ TokenCat.comment then
    if ¬(pyRstrip rstripChars t.text = "") then (false, t)
    else (is_after_colon, t)
  else (is_after_colon, t)

/-- The loop of `_pythonized_comments`, threading `is_after_colon`. -/
def pythonizedGo (st : Bool) : List Tok → List Tok
  | [] => []
  | t :: rest =>
    let p := pythonizedStep st t
    p.2 :: pythonizedGo p.1 rest

/-- `_pythonized_comments`: converts strings after a colon to comments;
`is_after_colon` starts out true. -/
def pythonized_comments (ts : List Tok) : List Tok :=
  pythonizedGo true ts

/-- A line mark-set: which of the marks `'d'` (documentation), `'s'` (string)
and `'c'` (code) were added for the current line (`'e'` is never added by
`_line_parts`). -/
structure LineMarks where
  d : Bool
  s : Bool
  c : Bool
deriving DecidableEq

/-- The empty mark-set `set()`. -/
def emptyMarks : LineMarks := ⟨false, false, false⟩

/-- `is_white_text` from the body of `_line_parts`:
`(token_text.strip() in white_words) or (token_text.rstrip(white_text) == '')`. -/
abbrev is_white_text (white_words : List String) (white_text : List Char)
    (text : String) : Prop :=
  pyStrip text ∈ white_words ∨ pyRstrip white_text text = ""

/-- The per-token mark update of `_line_parts`. -/
def addMark (white_words : List String) (white_text : List Char)
    (line_marks : LineMarks) (t : Tok) : LineMarks :=
  if t.cat = TokenCat.comment then {line_marks with d := true}
  else if t.cat = TokenCat.str then {line_marks with s := true}
  else if is_white_text white_words white_text t.text then line_marks
  else {line_marks with c := true}

/-- The token loop of `_line_parts`: emit the current mark-set whenever a
token text ends with a newline; at the end emit the leftover mark-set only
if it is nonempty (`len(line_marks) >= 1`). -/
def linePartsLoop (white_words : List String) (white_text : List Char)
    (line_marks : LineMarks) : List Tok → List LineMarks
  | [] => if line_marks ≠ emptyMarks then [line_marks] else []
  | t :: rest =>
    let m := addMark white_words white_text line_marks t
    if textEndsWithNl t.text then m :: linePartsLoop white_words white_text emptyMarks rest
    else linePartsLoop white_words white_text m rest

/-- `_line_parts(lexer, text)`: the `tokens` argument stands for
`lexer.get_tokens(text)`, the stream the external lexer produces;
`lexerName` is `lexer.name`. -/
def line_parts (lexerName : String) (tokens : List Tok) : List LineMarks :=
  let toks := delined_tokens tokens
  let toks := if lexerName = "Python" then pythonized_comments toks else toks
  let language_id := pyLower lexerName
  let white_text := [' ', '\x0c', '\n', '\r', '\t'] ++ white_characters language_id
  linePartsLoop (white_code_words language_id) white_text emptyMarks toks

/-- `mark_to_count_map`: the four counters of `source_analysis`. -/
structure MarkCounts where
  c : Nat
  d : Nat
  e : Nat
  s : Nat
deriving DecidableEq

/-- `mark_to_count_map[mark] += 1`. -/
def incrementMark (m : MarkCounts) (mark : Char) : MarkCounts :=
  if mark = 'c' then {m with c := m.c + 1}
  else if mark = 'd' then {m with d := m.d + 1}
  else if mark = 'e' then {m with e := m.e + 1}
  else if mark = 's' then {m with s := m.s + 1}
  else m

/-- The reduction of one line mark-set in `source_analysis`:
`mark_to_increment` starts as `'e'` and the loop over `('d', 's', 'c')`
overwrites it with every mark present (there is no break). -/
def markToIncrement (line_marks : LineMarks) : Char :=
  let mark := 'e'
  let mark := if line_marks.d then 'd' else mark
  let mark := if line_marks.s then 's' else mark
  let mark := if line_marks.c then 'c' else mark
  mark

/-- The counting loop of `source_analysis` over the emitted line mark-sets. -/
def countFold (acc : MarkCounts) : List LineMarks → MarkCounts
  | [] => acc
  | m :: rest => countFold (incrementMark acc (markToIncrement m)) rest

/-- The `SourceAnalysis` namedtuple.  `language` is `none` for a skipped
file (Python `None`) and `some "error"` for a read/decode failure. -/
structure SourceAnalysis where
  path : String
  language : Option String
  group : String
  code : Nat
  documentation : Nat
  empty : Nat
  string : Nat
deriving DecidableEq

/-- `source_analysis(source_path, group, ...)`.  External effects are inputs:
`lexerName` is the result of `lexers.get_lexer_for_filename` (`none` when
`util.ClassNotFound` is raised), and `readText` is the outcome of opening and
decoding the file — `none` for `OSError`/`UnicodeDecodeError`, otherwise the
token stream the lexer yields on the decoded text. -/
def source_analysis (source_path group : String) (lexerName : Option String)
    (readText : Option (List Tok)) : SourceAnalysis :=
  match lexerName with
  | none => ⟨source_path, none, group, 0, 0, 0, 0⟩
  | some name =>
    match readText with
    | none => ⟨source_path, some "error", group, 0, 0, 0, 0⟩
    | some tokens =>
      let counts := countFold ⟨0, 0, 0, 0⟩ (line_parts name tokens)
      ⟨source_path, some name, group, counts.c, counts.d, counts.e, counts.s⟩

/-- `codecs.BOM_UTF8`. -/
def BOM_UTF8 : List Nat := [0xef, 0xbb, 0xbf]

/-- `codecs.BOM_UTF32_LE`. -/
def BOM_UTF32_LE : List Nat := [0xff, 0xfe, 0x00, 0x00]

/-- `codecs.BOM_UTF16_BE`. -/
def BOM_UTF16_BE : List Nat := [0xfe, 0xff]

/-- `codecs.BOM_UTF16_LE`. -/
def BOM_UTF16_LE : List Nat := [0xff, 0xfe]

/-- `codecs.BOM_UTF32_BE`. -/
def BOM_UTF32_BE : List Nat := [0x00, 0x00, 0xfe, 0xff]

/-- `_BOM_TO_ENCODING_MAP`, an ordered association list: the iteration order
of the `OrderedDict` is the list order. -/
def BOM_TO_ENCODING_MAP : List (List Nat × String) :=
  [(BOM_UTF8, "utf-8-sig"),
   (BOM_UTF32_LE, "utf-32-le"),
   (BOM_UTF16_BE, "utf-16-be"),
   (BOM_UTF16_LE, "utf-16-le"),
   (BOM_UTF32_BE, "utf-32-be")]

/-- The BOM loop of `encoding_for`: the first map entry whose byte sequence
equals `heading[:len(bom)]` wins (`break`). -/
def bomEncoding (heading : List Nat) : Option String :=
  (BOM_TO_ENCODING_MAP.find? (fun p => heading.take p.1.length == p.1)).map (fun p => p.2)

/-- `heading.decode('ascii', errors='replace')` on one byte: bytes below 128
decode to themselves, anything else becomes the replacement character. -/
def asciiChar (b : Nat) : Char :=
  if b < 128 then Char.ofNat b else '�'

/-- One pass of `.replace('\r\n', '\n')`, left to right. -/
def replaceCRLFNL : List Char → List Char
  | [] => []
  | '\r' :: '\n' :: rest => '\n' :: replaceCRLFNL rest
  | c :: rest => c :: replaceCRLFNL rest

/-- `.replace('\r', '\n')`. -/
def crToNl (cs : List Char) : List Char :=
  cs.map (fun c => if c = '\r' then '\n' else c)

/-- Python `str.split('\n')`: the parts between newlines (an empty string
splits to one empty part). -/
def splitOnNl : List Char → List (List Char)
  | [] => [[]]
  | '\n' :: rest => [] :: splitOnNl rest
  | c :: rest =>
    match splitOnNl rest with
    | [] => [[c]]
    | l :: ls => (c :: l) :: ls

/-- `'\n'.join(...)`. -/
def joinNl (ls : List (List Char)) : List Char :=
  (ls.intersperse ['\n']).flatten

/-- The decoded and normalized heading of `encoding_for`:
ascii-decode, normalize line endings, keep the first two lines, append a
final newline. -/
def ascii_heading (heading : List Nat) : List Char :=
  joinNl ((splitOnNl (crToNl (replaceCRLFNL (heading.map asciiChar)))).take 2) ++ ['\n']

/-- Python `\w` on the ASCII-decoded heading. -/
def isWordChar (c : Char) : Bool :=
  c.isAlphanum || c = '_'

/-- The character class `[-_.a-zA-Z0-9]` of the encoding-name groups. -/
def isEncChar (c : Char) : Bool :=
  c = '-' || c = '_' || c = '.' || c.isAlphanum

/-- Whether the character after a match position is a word character
(`none` is the end of the text, where `\w` never matches). -/
def wordOpt : Option Char → Bool
  | none => false
  | some c => isWordChar c

/-- The backtracking of `(?P<encoding>[-_.a-zA-Z0-9]+)\b`: the greedy
character-class run is shortened from the right until a word boundary holds
after it.  The argument is the reversed run; `next` is the character that
follows the kept part. -/
def pickNameRev : List Char → Option Char → Option (List Char)
  | [], _ => none
  | c :: rest, next =>
    if isWordChar c ≠ wordOpt next then some (c :: rest)
    else pickNameRev rest (some c)

/-- The encoding-name group captured at a position: the maximal run of class
characters, shortened until `\b` holds. -/
def pickName (run : List Char) (next : Option Char) : Option (List Char) :=
  (pickNameRev run.reverse next).map List.reverse

/-- A match attempt of `_CODING_MAGIC_REGEX` with the `.+` prefix ending
exactly before `rest`: literal `coding`, one of `:` `=`, greedy `[ \t]*`,
then the captured encoding name with its trailing word boundary. -/
def codingTryAt (rest : List Char) : Option String :=
  if rest.take 6 = "coding".data then
    match rest.drop 6 with
    | [] => none
    | c :: rest2 =>
      if c = ':' ∨ c = '=' then
        let rest3 := rest2.dropWhile (fun ch => ch = ' ' ∨ ch = '\t')
        let run := rest3.takeWhile isEncChar
        match pickName run (rest3.drop run.length).head? with
        | some name => some ⟨name⟩
        | none => none
      else none
  else none

/-- The backtracking search of `.+` (greedy, DOTALL): prefix lengths are
tried from the longest down to 1. -/
def codingSearch (s : List Char) : Nat → Option String
  | 0 => none
  | n + 1 =>
    match codingTryAt (s.drop (n + 1)) with
    | some r => some r
    | none => codingSearch s n

/-- `_CODING_MAGIC_REGEX.match(s)`:
`.+coding[:=][ \t]*(?P<encoding>[-_.a-zA-Z0-9]+)\b` with `re.DOTALL`,
anchored at the start; returns the captured encoding name. -/
def coding_magic (s : List Char) : Option String :=
  codingSearch s s.length

/-- Python `\s`. -/
def isPySpace (c : Char) : Bool :=
  c = ' ' || c = '\t' || c = '\n' || c = '\r' || c = '\x0b' || c = '\x0c'

/-- Whether `?>` occurs somewhere in the text (the trailing `.*\?>` of the
XML prolog pattern). -/
def containsQGt : List Char → Bool
  | [] => false
  | [_] => false
  | x :: y :: rest => (x = '?' && y = '>') || containsQGt (y :: rest)

/-- A match attempt of the `encoding="..."` part of `_XML_PROLOG_REGEX` at
one position. -/
def xmlTryAt (rest : List Char) : Option String :=
  if rest.take 10 = "encoding=\"".data then
    let tail := rest.drop 10
    let name := tail.takeWhile isEncChar
    if name ≠ [] ∧ (tail.drop name.length).head? = some '"'
        ∧ containsQGt (tail.drop (name.length + 1)) then
      some ⟨name⟩
    else none
  else none

/-- The backtracking of the greedy `.*` before `encoding="`: positions from
the longest prefix down to the empty one. -/
def xmlSearch (s : List Char) : Nat → Option String
  | 0 => xmlTryAt s
  | n + 1 =>
    match xmlTryAt (s.drop (n + 1)) with
    | some r => some r
    | none => xmlSearch s n

/-- `_XML_PROLOG_REGEX.match(first_line)`:
`<\?xml\s+.*encoding="(?P<encoding>[-_.a-zA-Z0-9]+)".*\?>`. -/
def xml_prolog (line : List Char) : Option String :=
  if line.take 5 = "<?xml".data then
    let rest := line.drop 5
    let ws := rest.takeWhile isPySpace
    if ws = [] then none
    else xmlSearch (rest.drop ws.length) (rest.drop ws.length).length
  else none

/-- The `encoding == 'automatic'` branch of `encoding_for`.  `heading` is the
first 128 bytes read from the file; `utf8Readable` is whether reading the
first 16 KiB of the file as UTF-8 succeeds. -/
def encoding_for_automatic (heading : List Nat) (utf8Readable : Bool)
    (fallback_encoding : String) : String :=
  if heading = [] then "utf-8"
  else
    match bomEncoding heading with
    | some enc => enc
    | none =>
      match coding_magic (ascii_heading heading) with
      | some enc => enc
      | none =>
        match xml_prolog ((splitOnNl (ascii_heading heading)).headD []) with
        | some enc => enc
        | none => if utf8Readable then "utf-8" else fallback_encoding

/-- `encoding_for(source_path, encoding, fallback_encoding)`.  File contents
are inputs (`heading`, `utf8Readable`); `hasChardet` is the module-level
`has_chardet` flag and `sniffed` the detector's result.  The `none` result
models the assertion failure in the `'chardet'` branch when no detector is
available; every other path returns a value. -/
def encoding_for (encoding : String) (hasChardet : Bool) (heading : List Nat)
    (utf8Readable : Bool) (sniffed : String) (fallback_encoding : String) :
    Option String :=
  if encoding = "automatic" then
    some (encoding_for_automatic heading utf8Readable fallback_encoding)
  else if encoding = "chardet" then
    if hasChardet then some sniffed else none
  else some encoding

/-- Modelled from the spec: the configuration-time validation performed by
the surrounding tool (not part of `analysis.py`, whose `encoding_for` only
asserts that it has already happened): the `detector-based` (`chardet`)
encoding mode is rejected with a fatal configuration error, before any
per-file analysis, when no sniffer capability is available. -/
inductive ConfigCheck where
  | accepted
  | rejected
deriving DecidableEq

/-- Modelled from the spec: reject mode `chardet` upfront when `has_chardet`
is false; accept every other configuration. -/
def validate_encoding_config (encoding : String) (hasChardet : Bool) : ConfigCheck :=
  if encoding = "chardet" ∧ hasChardet = false then ConfigCheck.rejected
  else ConfigCheck.accepted

/-! ### Helper lemmas -/

lemma delineTextAux_flatten : ∀ (cs acc : List Char),
    (delineTextAux acc cs).flatten = acc.reverse ++ cs := by
  intro cs
  induction cs with
  | nil =>
    intro acc
    by_cases h : acc = [] <;> simp [delineTextAux, h]
  | cons c cs ih =>
    intro acc
    by_cases h : c = '\n'
    · subst h
      simp [delineTextAux, ih]
    · simp [delineTextAux, h, ih]

lemma delineTextAux_pieces : ∀ (cs acc : List Char), '\n' ∉ acc →
    ∀ p ∈ delineTextAux acc cs, p ≠ [] ∧ ∀ c ∈ p.dropLast, c ≠ '\n' := by
  intro cs
  induction cs with
  | nil =>
    intro acc hacc p hp
    by_cases h : acc = []
    · simp [delineTextAux, h] at hp
    · simp [delineTextAux, h] at hp
      subst hp
      refine ⟨by simp [h], fun c hc hcn => ?_⟩
      subst hcn
      exact hacc (by simpa using (List.dropLast_sublist acc.reverse).mem hc)
  | cons ch cs ih =>
    intro acc hacc p hp
    by_cases h : ch = '\n'
    · subst h
      simp [delineTextAux] at hp
      rcases hp with hp | hp
      · subst hp
        refine ⟨by simp, fun c hc hcn => ?_⟩
        subst hcn
        rw [List.dropLast_concat] at hc
        exact hacc (by simpa using hc)
      · exact ih [] (by simp) p hp
    · simp [delineTextAux, h] at hp
      refine ih (ch :: acc) ?_ p hp
      intro hmem
      rcases List.mem_cons.mp hmem with h2 | h2
      · exact h h2.symm
      · exact hacc h2

lemma delined_tokens_flatten_eq : ∀ ts : List Tok,
    delined_tokens ts = (ts.map delineTok).flatten := by
  intro ts
  induction ts with
  | nil => rfl
  | cons t ts ih => simp [delined_tokens, ih]

lemma countFold_sum : ∀ (ms : List LineMarks) (acc : MarkCounts),
    (countFold acc ms).c + (countFold acc ms).d + (countFold acc ms).e + (countFold acc ms).s
      = acc.c + acc.d + acc.e + acc.s + ms.length := by
  intro ms
  induction ms with
  | nil =>
    intro acc
    simp [countFold]
  | cons m rest ih =>
    intro acc
    have hstep : (incrementMark acc (markToIncrement m)).c
        + (incrementMark acc (markToIncrement m)).d
        + (incrementMark acc (markToIncrement m)).e
        + (incrementMark acc (markToIncrement m)).s
        = acc.c + acc.d + acc.e + acc.s + 1 := by
      rcases m with ⟨d, s, c⟩
      cases d <;> cases s <;> cases c <;>
        simp [markToIncrement, incrementMark] <;> omega
    rw [show countFold acc (m :: rest) = countFold (incrementMark acc (markToIncrement m)) rest
        from rfl, ih]
    rw [hstep]
    simp [List.length_cons]
    omega

lemma delineTok_text_flatten : ∀ t : Tok,
    ((delineTok t).map (fun u => u.text.data)).flatten = t.text.data := by
  intro t
  have h1 : ((delineTok t).map (fun u => u.text.data))
      = delineText t.text.data := by
    simp [delineTok, List.map_map]
    exact List.map_id _
  rw [h1, delineText, delineTextAux_flatten]
  rfl

/-! ### Claim theorems -/

/-- C9: the line delineator yields only tokens with non-empty text in which a
newline occurs at most as the final character; each output token carries the
category of the input token it was sliced from and the slices of one input
token appear contiguously in input order (the output is the concatenation of
the per-token slice lists); the concatenation of all output token texts
equals the concatenation of all input token texts. -/
theorem delined_tokens_line_slicing : ∀ ts : List Tok,
    (∀ u ∈ delined_tokens ts,
        u.text.data.isEmpty = false
        ∧ u.text.data.dropLast.all (fun c => c != '\n') = true)
    ∧ (∀ t : Tok, ∀ u ∈ delineTok t, u.cat = t.cat)
    ∧ delined_tokens ts = (ts.map delineTok).flatten
    ∧ ((delined_tokens ts).map (fun u => u.text.data)).flatten
        = (ts.map (fun u => u.text.data)).flatten := by
  intro ts
  refine ⟨?_, ?_, delined_tokens_flatten_eq ts, ?_⟩
  · intro u hu
    rw [delined_tokens_flatten_eq] at hu
    obtain ⟨l, hl, hul⟩ := List.mem_flatten.mp hu
    obtain ⟨t, _, rfl⟩ := List.mem_map.mp hl
    obtain ⟨cs, hcs, rfl⟩ := List.mem_map.mp hul
    obtain ⟨hne, hnl⟩ := delineTextAux_pieces t.text.data [] (by simp) cs hcs
    constructor
    · cases cs with
      | nil => exact absurd rfl hne
      | cons a l => rfl
    · simp only [List.all_eq_true, bne_iff_ne]
      exact fun c hc => hnl c hc
  · intro t u hu
    obtain ⟨cs, _, rfl⟩ := List.mem_map.mp hu
    rfl
  · induction ts with
    | nil => rfl
    | cons t ts ih =>
      have : delined_tokens (t :: ts) = delineTok t ++ delined_tokens ts := rfl
      rw [this]
      simp only [List.map_append, List.flatten_append, List.map_cons, List.flatten_cons]
      rw [ih, delineTok_text_flatten]

/-- C9 witness: on the input token `(other, "a\nb")` the first emitted slice
`(other, "a\n")` has non-empty text with a newline only in final position. -/
theorem delined_tokens_line_slicing_witness :
    (⟨TokenCat.other, "a\n"⟩ : Tok).text.data.isEmpty = false
    ∧ (⟨TokenCat.other, "a\n"⟩ : Tok).text.data.dropLast.all (fun c => c != '\n') = true :=
  (delined_tokens_line_slicing [⟨TokenCat.other, "a\nb"⟩]).1
    ⟨TokenCat.other, "a\n"⟩ (by decide)

/-- C2: for a file analyzed without skip or read error, the four counts of
the result sum to the number of line mark-sets emitted by the line
classifier; for a skipped file (no lexer) and for a read/decode error all
four counts are zero. -/
theorem analysis_counts_sum :
    (∀ (path group name : String) (tokens : List Tok),
        (source_analysis path group (some name) (some tokens)).code
        + (source_analysis path group (some name) (some tokens)).documentation
        + (source_analysis path group (some name) (some tokens)).empty
        + (source_analysis path group (some name) (some tokens)).string
        = (line_parts name tokens).length)
    ∧ (∀ (path group : String) (readText : Option (List Tok)),
        source_analysis path group none readText
        = ⟨path, none, group, 0, 0, 0, 0⟩)
    ∧ (∀ (path group name : String),
        source_analysis path group (some name) none
        = ⟨path, some "error", group, 0, 0, 0, 0⟩) := by
  refine ⟨?_, fun _ _ _ => rfl, fun _ _ _ => rfl⟩
  intro path group name tokens
  have h := countFold_sum (line_parts name tokens) ⟨0, 0, 0, 0⟩
  simpa [source_analysis] using h

/-- C8: when a lexer is found but reading or decoding the file fails, the
result record has language `"error"` and all four counts zero; the failure
is recorded, not raised (`source_analysis` is total on this input). -/
theorem read_error_zero_result : ∀ (path group name : String),
    source_analysis path group (some name) none
    = ⟨path, some "error", group, 0, 0, 0, 0⟩ :=
  fun _ _ _ => rfl

/-- C1 counterexample: the claim says a mark-set containing both
documentation and code is counted as documentation, but the loop over
`('d', 's', 'c')` has no break, so the code counter is incremented instead;
end to end, a line carrying a comment token and a code token counts as code. -/
theorem mixed_doc_code_line_counterexample :
    markToIncrement ⟨true, false, true⟩ = 'c'
    ∧ markToIncrement ⟨true, false, true⟩ ≠ 'd'
    ∧ source_analysis "t.c" "g" (some "C")
        (some [⟨TokenCat.comment, "/*x*/"⟩, ⟨TokenCat.other, "y"⟩, ⟨TokenCat.other, "\n"⟩])
      = ⟨"t.c", some "C", "g", 1, 0, 0, 0⟩ := by
  refine ⟨rfl, by decide, by decide⟩

/-- C1 amended: each emitted line mark-set is reduced to exactly one
category with the effective priority code > string > documentation > empty:
the loop over `('d', 's', 'c')` keeps the last mark present, so code wins
over string, string over documentation, and a mark-set containing none of
them counts as empty. -/
theorem mark_reduction_code_priority : ∀ m : LineMarks,
    markToIncrement m
      = (if m.c then 'c' else if m.s then 's' else if m.d then 'd' else 'e') := by
  intro m
  rcases m with ⟨d, s, c⟩
  cases d <;> cases s <;> cases c <;> rfl

lemma string_mk_eq_empty_iff (l : List Char) : (⟨l⟩ : String) = "" ↔ l = [] := by
  constructor
  · intro h
    have := congrArg String.data h
    simpa using this
  · intro h
    rw [h]

lemma pyRstrip_eq_empty_iff (wt : List Char) (s : String) :
    pyRstrip wt s = "" ↔ ∀ c ∈ s.data, c ∈ wt := by
  rw [pyRstrip, string_mk_eq_empty_iff, List.reverse_eq_nil_iff,
    List.dropWhile_eq_nil_iff]
  constructor
  · intro h c hc
    simpa using h c (by simpa using hc)
  · intro h c hc
    simpa using h c (by simpa using hc)

lemma linePartsLoop_white_skip :
    ∀ (ww : List String) (wt : List Char) (tail : List Tok),
      (∀ t ∈ tail, t.cat ≠ TokenCat.comment ∧ t.cat ≠ TokenCat.str ∧
          is_white_text ww wt t.text ∧ textEndsWithNl t.text = false) →
      ∀ (m : LineMarks) (rest : List Tok),
        linePartsLoop ww wt m (tail ++ rest) = linePartsLoop ww wt m rest := by
  intro ww wt tail
  induction tail with
  | nil => intro _ m rest; rfl
  | cons t ts ih =>
    intro h m rest
    obtain ⟨h1, h2, h3, h4⟩ := h t (by simp)
    have haddm : addMark ww wt m t = m := by
      simp [addMark, h1, h2, h3]
    have : linePartsLoop ww wt m ((t :: ts) ++ rest)
        = linePartsLoop ww wt (addMark ww wt m t) (ts ++ rest) := by
      simp only [List.cons_append, linePartsLoop, h4]
      simp
    rw [this, haddm]
    exact ih (fun u hu => h u (by simp [hu])) m rest

/-- C3: for Python the reclassifier starts with `is_after_colon` true,
converts every String token seen in that state to Comment without changing
the state, sets the state on a token whose text is exactly `:`, and clears
it on a non-Comment token whose text is non-empty after stripping trailing
whitespace; consequently a string literal right after a block-opening colon
is classified as documentation while an identical string literal on a line
after ordinary code is classified as string. -/
theorem pythonized_comments_colon_rules :
    (∀ (st : Bool) (t : Tok),
        pythonizedStep st t =
          if st = true ∧ t.cat = TokenCat.str then (st, ⟨TokenCat.comment, t.text⟩)
          else if t.text = ":" then (true, t)
          else if t.cat ≠ TokenCat.comment ∧ pyRstrip rstripChars t.text ≠ "" then (false, t)
          else (st, t))
    ∧ (∀ ts : List Tok, pythonized_comments ts = pythonizedGo true ts)
    ∧ line_parts "Python"
        [⟨TokenCat.other, "def"⟩, ⟨TokenCat.other, " "⟩, ⟨TokenCat.other, "f"⟩,
         ⟨TokenCat.other, "("⟩, ⟨TokenCat.other, ")"⟩, ⟨TokenCat.other, ":"⟩,
         ⟨TokenCat.other, "\n"⟩, ⟨TokenCat.other, "    "⟩, ⟨TokenCat.str, "\"doc\""⟩,
         ⟨TokenCat.other, "\n"⟩]
      = [⟨false, false, true⟩, ⟨true, false, false⟩]
    ∧ line_parts "Python"
        [⟨TokenCat.other, "x"⟩, ⟨TokenCat.other, "\n"⟩, ⟨TokenCat.str, "\"doc\""⟩,
         ⟨TokenCat.other, "\n"⟩]
      = [⟨false, false, true⟩, ⟨false, true, false⟩] := by
  refine ⟨?_, fun _ => rfl, by decide, by decide⟩
  intro st t
  simp only [pythonizedStep]
  split_ifs <;> first | rfl | tauto

/-- C7: a non-Comment, non-String token contributes no mark exactly when its
stripped text is a white code word or every character of its text is
whitespace or a white character, and contributes the code mark otherwise;
consequently a line containing only `pass` is empty for Python and code for
a language without that configuration. -/
theorem white_word_line_classification :
    (∀ (ww : List String) (wt : List Char) (m : LineMarks) (t : Tok),
        addMark ww wt m t =
          if t.cat = TokenCat.comment then {m with d := true}
          else if t.cat = TokenCat.str then {m with s := true}
          else if pyStrip t.text ∈ ww ∨ (∀ c ∈ t.text.data, c ∈ wt) then m
          else {m with c := true})
    ∧ white_code_words "python" = ["pass"]
    ∧ countFold ⟨0, 0, 0, 0⟩
        (line_parts "Python" [⟨TokenCat.other, "pass"⟩, ⟨TokenCat.other, "\n"⟩])
      = ⟨0, 0, 1, 0⟩
    ∧ countFold ⟨0, 0, 0, 0⟩
        (line_parts "C" [⟨TokenCat.other, "pass"⟩, ⟨TokenCat.other, "\n"⟩])
      = ⟨1, 0, 0, 0⟩ := by
  refine ⟨?_, rfl, by decide, by decide⟩
  intro ww wt m t
  simp only [addMark, is_white_text, pyRstrip_eq_empty_iff]

/-- C10: a whitespace-only line ending in a line terminator is emitted as an
empty mark-set and counted in the `empty` counter, while a trailing partial
line without a terminator whose tokens are all whitespace, white characters
or white code words leaves an empty leftover mark-set that is not emitted,
so that line is counted in none of the four counters. -/
theorem trailing_white_partial_line_uncounted :
    ∀ (ww : List String) (wt : List Char) (tail : List Tok) (t : Tok),
      (∀ u ∈ tail, u.cat ≠ TokenCat.comment ∧ u.cat ≠ TokenCat.str ∧
          is_white_text ww wt u.text ∧ textEndsWithNl u.text = false) →
      t.cat ≠ TokenCat.comment → t.cat ≠ TokenCat.str → is_white_text ww wt t.text →
      textEndsWithNl t.text = true →
      linePartsLoop ww wt emptyMarks (tail ++ [t]) = [emptyMarks]
      ∧ countFold ⟨0, 0, 0, 0⟩ (linePartsLoop ww wt emptyMarks (tail ++ [t]))
          = ⟨0, 0, 1, 0⟩
      ∧ linePartsLoop ww wt emptyMarks tail = [] := by
  intro ww wt tail t htail h1 h2 h3 h4
  have hskip := linePartsLoop_white_skip ww wt tail htail
  have haddm : addMark ww wt emptyMarks t = emptyMarks := by
    simp [addMark, h1, h2, h3]
  have hone : linePartsLoop ww wt emptyMarks (tail ++ [t]) = [emptyMarks] := by
    rw [hskip]
    simp only [linePartsLoop, h4]
    simp [haddm, linePartsLoop]
  refine ⟨hone, by rw [hone]; rfl, ?_⟩
  have h0 : linePartsLoop ww wt emptyMarks (tail ++ []) = linePartsLoop ww wt emptyMarks [] :=
    hskip emptyMarks []
  rw [List.append_nil] at h0
  rw [h0]
  simp [linePartsLoop]

/-- C10 witness: concrete instances — `"  "` then `" \n"` forms a
whitespace line counted as empty; a lone trailing `"  "` is not emitted. -/
theorem trailing_white_partial_line_uncounted_witness :
    linePartsLoop ["pass"] ([' ', '\x0c', '\n', '\r', '\t'] ++ white_characters "python")
        emptyMarks [⟨TokenCat.other, "  "⟩, ⟨TokenCat.other, " \n"⟩] = [emptyMarks]
    ∧ linePartsLoop ["pass"] ([' ', '\x0c', '\n', '\r', '\t'] ++ white_characters "python")
        emptyMarks [⟨TokenCat.other, "  "⟩] = [] :=
  have h := trailing_white_partial_line_uncounted ["pass"]
    ([' ', '\x0c', '\n', '\r', '\t'] ++ white_characters "python")
    [⟨TokenCat.other, "  "⟩] ⟨TokenCat.other, " \n"⟩
    (by decide) (by decide) (by decide) (by decide) (by decide)
  ⟨h.1, h.2.2⟩

/-- C4: the BOM signatures are tested in the fixed order utf-8-sig,
utf-32-le, utf-16-be, utf-16-le, utf-32-be, and the first signature that is
a byte-for-byte prefix of the heading wins, so every heading beginning with
bytes FF FE 00 00 resolves in automatic mode to utf-32-le and never to
utf-16-le despite the shared two-byte prefix. -/
theorem bom_utf32_le_wins : ∀ (rest : List Nat) (hc u : Bool) (sn fb : String),
    bomEncoding (0xff :: 0xfe :: 0x00 :: 0x00 :: rest) = some "utf-32-le"
    ∧ encoding_for "automatic" hc (0xff :: 0xfe :: 0x00 :: 0x00 :: rest) u sn fb
        = some "utf-32-le"
    ∧ encoding_for "automatic" hc (0xff :: 0xfe :: 0x00 :: 0x00 :: rest) u sn fb
        ≠ some "utf-16-le"
    ∧ BOM_TO_ENCODING_MAP
        = [(BOM_UTF8, "utf-8-sig"), (BOM_UTF32_LE, "utf-32-le"),
           (BOM_UTF16_BE, "utf-16-be"), (BOM_UTF16_LE, "utf-16-le"),
           (BOM_UTF32_BE, "utf-32-be")] := by
  intro rest hc u sn fb
  have he : encoding_for "automatic" hc (0xff :: 0xfe :: 0x00 :: 0x00 :: rest) u sn fb
      = some "utf-32-le" := rfl
  refine ⟨rfl, he, ?_, rfl⟩
  rw [he]
  decide

/-- C5: in automatic mode, when no BOM signature matches, the heading (at
most 128 bytes) is decoded as best-effort ASCII, line endings are
normalized, only the first two lines are kept, and a match of the coding
declaration pattern makes `encoding_for` return the captured encoding name. -/
theorem coding_declaration_resolution :
    ∀ (heading : List Nat) (hc u : Bool) (sn fb enc : String),
      heading ≠ [] → heading.length ≤ 128 → bomEncoding heading = none →
      coding_magic (ascii_heading heading) = some enc →
      encoding_for "automatic" hc heading u sn fb = some enc := by
  intro heading hc u sn fb enc h1 _ h3 h4
  simp [encoding_for, encoding_for_automatic, h1, h3, h4]

/-- C5 witness: a file with no BOM whose second line is
`# -*- coding: latin-1 -*-` resolves in automatic mode to latin-1. -/
theorem coding_declaration_resolution_witness :
    encoding_for "automatic" false
        ("#!x\n# -*- coding: latin-1 -*-\nprint(1)\n".data.map Char.toNat)
        true "x" "cp1252" = some "latin-1" :=
  coding_declaration_resolution
    ("#!x\n# -*- coding: latin-1 -*-\nprint(1)\n".data.map Char.toNat)
    false true "x" "cp1252" "latin-1"
    (by decide) (by decide) (by decide) (by decide)

/-- C6: requesting the chardet encoding mode without an available sniffer is
rejected by the configuration-time validation (modelled from the spec), and
for every configuration that validation accepts, `encoding_for` can never
hit its chardet assertion: it always returns a value, so the failure is
never deferred to per-file calls. -/
theorem chardet_config_rejection :
    (∀ hc : Bool,
        validate_encoding_config "chardet" hc = ConfigCheck.rejected ↔ hc = false)
    ∧ (∀ (enc : String) (hc : Bool) (heading : List Nat) (u : Bool) (sn fb : String),
        validate_encoding_config enc hc = ConfigCheck.accepted →
        (encoding_for enc hc heading u sn fb).isSome = true) := by
  constructor
  · intro hc
    cases hc <;> simp [validate_encoding_config]
  · intro enc hc heading u sn fb hv
    by_cases h1 : enc = "automatic"
    · simp [encoding_for, h1]
    · by_cases h2 : enc = "chardet"
      · subst h2
        cases hc
        · simp [validate_encoding_config] at hv
        · simp [encoding_for]
      · simp [encoding_for, h1, h2]

/-- C6 witness: the accepted configuration (automatic mode, no chardet)
yields a defined `encoding_for` result. -/
theorem chardet_config_rejection_witness :
    (encoding_for "automatic" false [] true "x" "cp1252").isSome = true :=
  chardet_config_rejection.2 "automatic" false [] true "x" "cp1252" (by decide)
